import Mathlib

/-!
Verification development for `imodels/tree/viz_utils.py`: conversion of a
FIGS linked-node binary tree into the flat array representation expected by
the sklearn `Tree` runtime.

Numeric modelling: python floats become `Rat`; class-count histograms are
`Nat` lists; fallible code returns `Except String`.  A python `Optional[Node]`
child reference is modelled by the `nil` constructor of `FigsTree`.
-/

/-- A FIGS tree (the input tree type, externally produced).  `nil` models an
absent (`None`) node reference; a `node` carries the attributes read by
`viz_utils.py`: `node_num` (stable node number), `feature`, `threshold`,
`impurity`, and the `left`/`right` child references. -/
inductive FigsTree where
  | nil : FigsTree
  | node (node_num : Int) (feature : Nat) (threshold : Rat) (impurity : Rat)
      (left right : FigsTree) : FigsTree
deriving DecidableEq, Repr

/-- Number of nodes of the tree. -/
def treeSize : FigsTree → Nat
  | .nil => 0
  | .node _ _ _ _ l r => 1 + treeSize l + treeSize r

/-- `node.left is not None` test used by `_update_node` (`has_children`). -/
def isNil : FigsTree → Bool
  | .nil => true
  | .node _ _ _ _ _ _ => false

/-- One row of the seven-field per-node record emitted by
`_extract_arrays_from_figs_tree` (the `TreeData` namedtuple columns). -/
structure NodeRecord where
  left_child : Int
  right_child : Int
  feature : Int
  threshold : Rat
  impurity : Rat
  n_node_samples : Nat
  weighted_n_node_samples : Rat
deriving DecidableEq, Repr

/-- A record together with the per-node class histogram appended to
`value_array` at the same step (the two python lists grow in lockstep). -/
structure FlatEntry where
  record : NodeRecord
  value : List Nat
deriving DecidableEq, Repr

/-- `pd.Series(y).value_counts()[c]` with the `KeyError → 0` fallback:
the number of occurrences of label `c` in `y`. -/
def cnt (c : Rat) (y : List Rat) : Nat :=
  (y.filter fun v => v = c).length

/-- Numpy boolean-mask row selection `xs[mask]`. -/
def filterMask : List Bool → List α → List α
  | [], _ => []
  | _, [] => []
  | b :: bs, x :: xs => if b then x :: filterMask bs xs else filterMask bs xs

/-- The boolean mask `X[:, feature] <= threshold` computed for an internal
node. -/
def maskOf (X : List (List Rat)) (feature : Nat) (threshold : Rat) : List Bool :=
  X.map fun row => decide (row.getD feature 0 ≤ threshold)

/-- The recursive worker `_update_node` of `_extract_arrays_from_figs_tree`.
Returns the flat entries in append order (pre-order: the node record is
appended before recursing left then right).  A node whose `left` is absent is
treated as a leaf (`has_children = node.left is not None`); a node with
`left` present and `right` absent hits `node.right.node_num` on `None`,
which in python raises `AttributeError`. -/
def updateNode : FigsTree → List (List Rat) → List Rat →
    Except String (List FlatEntry)
  | .nil, _, _ => .ok []
  | .node _ feat thr imp l r, X, y =>
    let neg := cnt 0 y
    let pos := cnt 1 y
    match l with
    | .nil =>
      .ok [{ record := { left_child := -1, right_child := -1, feature := -2,
                         threshold := -2, impurity := imp,
                         n_node_samples := neg + pos,
                         weighted_n_node_samples := (neg + pos : Nat) },
             value := [neg, pos] }]
    | .node lnn lf lt li ll lr =>
      match r with
      | .nil => .error "AttributeError: NoneType object has no attribute node_num"
      | .node rnn rf rt ri rl rr =>
        let mask := maskOf X feat thr
        match updateNode (.node lnn lf lt li ll lr) (filterMask mask X)
            (filterMask mask y) with
        | .error e => .error e
        | .ok ls =>
          match updateNode (.node rnn rf rt ri rl rr)
              (filterMask (mask.map not) X) (filterMask (mask.map not) y) with
          | .error e => .error e
          | .ok rs =>
            .ok ({ record := { left_child := lnn, right_child := rnn,
                               feature := (feat : Int), threshold := thr,
                               impurity := imp,
                               n_node_samples := neg + pos,
                               weighted_n_node_samples := (neg + pos : Nat) },
                   value := [neg, pos] } :: ls ++ rs)

/-- `_extract_arrays_from_figs_tree`: the pair (record columns, value
histograms), both in the shared append order. -/
def extractArraysFromFigsTree (figs_tree : FigsTree)
    (X : List (List Rat)) (y : List Rat) :
    Except String (List NodeRecord × List (List Nat)) :=
  match updateNode figs_tree X y with
  | .error e => .error e
  | .ok entries => .ok (entries.map (·.record), entries.map (·.value))

/-- `get_max_depth` from `extract_sklearn_tree_from_figs`:
`-1` on `None`, else `1 + max(depth left, depth right)`. -/
def get_max_depth : FigsTree → Int
  | .nil => -1
  | .node _ _ _ _ l r => 1 + max (get_max_depth l) (get_max_depth r)

/-- The marker distinguishing classification from regression source models
(python: `isinstance(figs, ClassifierMixin)` / `RegressorMixin`). -/
inductive SourceKind where
  | classifier
  | regressor
  | other
deriving DecidableEq, Repr

/-- The FIGS model object as read by `extract_sklearn_tree_from_figs`:
a list of trees (`trees_`, entries may be `None`) and its model kind. -/
structure Figs where
  trees_ : List FigsTree
  kind : SourceKind
deriving DecidableEq, Repr

/-- The `_state` dict assembled by `extract_sklearn_tree_from_figs` and
passed to `Tree.__setstate__` (and, extended with the tree, to the
decision-tree estimator's `__setstate__`). -/
structure SklearnState where
  max_depth : Int
  node_count : Nat
  nodes : List NodeRecord
  values : List (List (List Nat))
  sklearn_version : String
deriving DecidableEq, Repr

/-- A populated sklearn `Tree` value after the two-phase construction
(allocation with shape parameters, then `__setstate__`). -/
structure SkTreeObj where
  n_features : Nat
  n_classes : List Nat
  n_outputs : Nat
  max_depth : Int
  node_count : Nat
  nodes : List NodeRecord
  values : List (List (List Nat))
deriving DecidableEq, Repr

/-- The resulting predictive-model object (`DecisionTreeClassifier` or
`DecisionTreeRegressor` after `__setstate__`). -/
inductive DecisionTreeModel where
  | classifier (max_depth : Int) (tree : SkTreeObj)
  | regressor (max_depth : Int) (tree : SkTreeObj)
deriving DecidableEq, Repr

/-- Modelled from the spec: the external array-tree runtime (`sklearn.tree.
_tree.Tree.__setstate__`) is not part of this repository; per the spec its
populate phase accepts the state bundle only when the value tensor has the
shape (node record count) x (output count) x (max per-output class count),
and otherwise rejects the bundle loudly. -/
def Tree_setstate (n_features : Nat) (n_classes : List Nat) (n_outputs : Nat)
    (st : SklearnState) : Except String SkTreeObj :=
  let maxNClasses := n_classes.foldr max 0
  if (st.values.length == st.nodes.length
      && st.values.all fun out =>
        out.length == n_outputs && out.all fun h => h.length == maxNClasses) then
    .ok { n_features := n_features, n_classes := n_classes,
          n_outputs := n_outputs, max_depth := st.max_depth,
          node_count := st.node_count, nodes := st.nodes, values := st.values }
  else
    .error "ValueError: Did not recognise loaded array layout"

/-- The steps of `extract_sklearn_tree_from_figs` that assemble the `_state`
dict for the selected tree: flattening, the `value_array.reshape(n, 1,
value_array.shape[1])` call (which raises `IndexError` on an empty
`value_array`, whose shape is one-dimensional), and metadata collection.
`installed_version` is the `sklearn.__version__` of the running
installation, imported at module top. -/
def buildState (figs_tree : FigsTree) (X_train : List (List Rat))
    (y_train : List Rat) (installed_version : String) :
    Except String SklearnState :=
  match extractArraysFromFigsTree figs_tree X_train y_train with
  | .error e => .error e
  | .ok (tree_data_array, value_array) =>
    match value_array with
    | [] => .error "IndexError: tuple index out of range"
    | _ =>
      let values := value_array.map fun v => [v]
      .ok { max_depth := get_max_depth figs_tree,
            node_count := tree_data_array.length,
            nodes := tree_data_array,
            values := values,
            sklearn_version := installed_version }

/-- `extract_sklearn_tree_from_figs`: select the tree, flatten it, assemble
the state bundle, run the runtime's two-phase construction, then build the
estimator variant.  The classification branch checks `isinstance(figs,
ClassifierMixin)`; the regression branch checks `isinstance(self,
RegressorMixin)` where `self` is an unbound name, so reaching it raises
`NameError`. -/
def extract_sklearn_tree_from_figs (figs : Figs) (tree_number : Nat)
    (X_train : List (List Rat)) (y_train : List Rat)
    (installed_version : String) : Except String DecisionTreeModel :=
  match figs.trees_.get? tree_number with
  | none => .error "AttributeError: Can not load tree_number!"
  | some figs_tree =>
    match buildState figs_tree X_train y_train installed_version with
    | .error e => .error e
    | .ok st =>
      let n_features := (X_train.headD []).length
      let n_classes := y_train.dedup.length
      let n_outputs := 1
      match Tree_setstate n_features [n_classes] n_outputs st with
      | .error e => .error e
      | .ok tree =>
        match figs.kind with
        | .classifier => .ok (.classifier st.max_depth tree)
        | _ => .error "NameError: name self is not defined"

deriving instance DecidableEq for Except

/-- The entry appended for a node treated as a leaf (`has_children` false). -/
def leafEntry (imp : Rat) (y : List Rat) : FlatEntry :=
  { record := { left_child := -1, right_child := -1, feature := -2,
                threshold := -2, impurity := imp,
                n_node_samples := cnt 0 y + cnt 1 y,
                weighted_n_node_samples := (cnt 0 y + cnt 1 y : Nat) },
    value := [cnt 0 y, cnt 1 y] }

/-- The entry appended for an internal node (children indices taken from the
children's `node_num` attributes). -/
def internalEntry (lnn rnn : Int) (feat : Nat) (thr imp : Rat)
    (y : List Rat) : FlatEntry :=
  { record := { left_child := lnn, right_child := rnn, feature := (feat : Int),
                threshold := thr, impurity := imp,
                n_node_samples := cnt 0 y + cnt 1 y,
                weighted_n_node_samples := (cnt 0 y + cnt 1 y : Nat) },
    value := [cnt 0 y, cnt 1 y] }

theorem updateNode_nil_eq (X : List (List Rat)) (y : List Rat) :
    updateNode .nil X y = .ok [] := rfl

theorem updateNode_leaf_eq (nn : Int) (feat : Nat) (thr imp : Rat)
    (r : FigsTree) (X : List (List Rat)) (y : List Rat) :
    updateNode (.node nn feat thr imp .nil r) X y = .ok [leafEntry imp y] := rfl

theorem updateNode_oneleft_eq (nn : Int) (feat : Nat) (thr imp : Rat)
    (lnn : Int) (lf : Nat) (lt li : Rat) (ll lr : FigsTree)
    (X : List (List Rat)) (y : List Rat) :
    updateNode (.node nn feat thr imp (.node lnn lf lt li ll lr) .nil) X y =
      .error "AttributeError: NoneType object has no attribute node_num" := rfl

theorem updateNode_internal_eq (nn : Int) (feat : Nat) (thr imp : Rat)
    (lnn : Int) (lf : Nat) (lt li : Rat) (ll lr : FigsTree)
    (rnn : Int) (rf : Nat) (rt ri : Rat) (rl rr : FigsTree)
    (X : List (List Rat)) (y : List Rat) :
    updateNode (.node nn feat thr imp (.node lnn lf lt li ll lr)
        (.node rnn rf rt ri rl rr)) X y =
      (match updateNode (.node lnn lf lt li ll lr)
          (filterMask (maskOf X feat thr) X) (filterMask (maskOf X feat thr) y) with
      | .error e => .error e
      | .ok ls =>
        match updateNode (.node rnn rf rt ri rl rr)
            (filterMask ((maskOf X feat thr).map not) X)
            (filterMask ((maskOf X feat thr).map not) y) with
        | .error e => .error e
        | .ok rs => .ok (internalEntry lnn rnn feat thr imp y :: ls ++ rs)) := rfl

theorem updateNode_node_head (nn : Int) (feat : Nat) (thr imp : Rat)
    (l r : FigsTree) (X : List (List Rat)) (y : List Rat)
    (es : List FlatEntry)
    (h : updateNode (.node nn feat thr imp l r) X y = .ok es) :
    ∃ e tail, es = e :: tail ∧ e.value = [cnt 0 y, cnt 1 y] ∧
      e.record.n_node_samples = cnt 0 y + cnt 1 y := by
  cases l with
  | nil =>
    rw [updateNode_leaf_eq] at h
    simp only [Except.ok.injEq] at h
    subst h
    exact ⟨_, _, rfl, rfl, rfl⟩
  | node lnn lf lt li ll lr =>
    cases r with
    | nil => rw [updateNode_oneleft_eq] at h; simp at h
    | node rnn rf rt ri rl rr =>
      rw [updateNode_internal_eq] at h
      split at h
      · simp at h
      · split at h
        · simp at h
        · simp only [Except.ok.injEq] at h
          subst h
          exact ⟨_, _, rfl, rfl, rfl⟩

theorem updateNode_value_length (t : FigsTree) :
    ∀ (X : List (List Rat)) (y : List Rat) (es : List FlatEntry),
      updateNode t X y = .ok es → ∀ e ∈ es, e.value.length = 2 := by
  induction t with
  | nil =>
    intro X y es h e he
    rw [updateNode_nil_eq] at h
    simp only [Except.ok.injEq] at h
    subst h
    simp at he
  | node nn feat thr imp l r ihl ihr =>
    intro X y es h e he
    cases l with
    | nil =>
      rw [updateNode_leaf_eq] at h
      simp only [Except.ok.injEq] at h
      subst h
      simp only [List.mem_singleton] at he
      subst he
      rfl
    | node lnn lf lt li ll lr =>
      cases r with
      | nil => rw [updateNode_oneleft_eq] at h; simp at h
      | node rnn rf rt ri rl rr =>
        rw [updateNode_internal_eq] at h
        split at h
        · simp at h
        · rename_i ls hls
          split at h
          · simp at h
          · rename_i rs hrs
            simp only [Except.ok.injEq] at h
            subst h
            simp only [List.mem_cons, List.mem_append] at he
            rcases he with (he | he) | he
            · subst he; rfl
            · exact ihl _ _ _ hls e he
            · exact ihr _ _ _ hrs e he

theorem filterMask_append_perm (m : List Bool) :
    ∀ (xs : List α), m.length = xs.length →
      (filterMask m xs ++ filterMask (m.map not) xs).Perm xs := by
  induction m with
  | nil =>
    intro xs h
    cases xs with
    | nil => simp [filterMask]
    | cons x tl => simp at h
  | cons b bs ih =>
    intro xs h
    cases xs with
    | nil => simp at h
    | cons x tl =>
      simp only [List.length_cons] at h
      have ih' := ih tl (by omega)
      cases b with
      | false =>
        have h1 : filterMask (false :: bs) (x :: tl) = filterMask bs tl := by
          simp [filterMask]
        have h2 : filterMask ((false :: bs).map not) (x :: tl) =
            x :: filterMask (bs.map not) tl := by
          simp [filterMask]
        rw [h1, h2]
        exact List.Perm.trans List.perm_middle (ih'.cons x)
      | true =>
        have h1 : filterMask (true :: bs) (x :: tl) = x :: filterMask bs tl := by
          simp [filterMask]
        have h2 : filterMask ((true :: bs).map not) (x :: tl) =
            filterMask (bs.map not) tl := by
          simp [filterMask]
        rw [h1, h2]
        exact ih'.cons x

theorem filterMask_map_self (p : α → Bool) (xs : List α) :
    filterMask (xs.map p) xs = xs.filter p := by
  induction xs with
  | nil => rfl
  | cons x tl ih =>
    cases hp : p x <;>
      simp [filterMask, hp, ih, List.filter_cons]

theorem filterMask_map_not_self (p : α → Bool) (xs : List α) :
    filterMask ((xs.map p).map not) xs = xs.filter fun a => !(p a) := by
  have h : (xs.map p).map not = xs.map fun a => !(p a) := by
    simp [List.map_map]
  rw [h, filterMask_map_self]

theorem cnt_eq_of_perm {y₁ y₂ : List Rat} (h : y₁.Perm y₂) (c : Rat) :
    cnt c y₁ = cnt c y₂ :=
  (h.filter _).length_eq

theorem cnt_append (c : Rat) (y₁ y₂ : List Rat) :
    cnt c (y₁ ++ y₂) = cnt c y₁ + cnt c y₂ := by
  simp [cnt, List.filter_append]

/-- C6: for an internal node with both children present, `_update_node`
routes left exactly the carried rows whose value at the split feature is ≤
the threshold and right exactly the remaining rows; the two routed subsets
partition the carried rows and labels (no row dropped or duplicated), and
the node's `n_node_samples` equals the sum of the two children's
`n_node_samples`. -/
theorem internal_partition_and_sample_sum (nn : Int) (feat : Nat)
    (thr imp : Rat) (lnn : Int) (lf : Nat) (lt li : Rat) (ll lr : FigsTree)
    (rnn : Int) (rf : Nat) (rt ri : Rat) (rl rr : FigsTree)
    (X : List (List Rat)) (y : List Rat) (hlen : y.length = X.length)
    (es : List FlatEntry)
    (h : updateNode (.node nn feat thr imp (.node lnn lf lt li ll lr)
        (.node rnn rf rt ri rl rr)) X y = .ok es) :
    filterMask (maskOf X feat thr) X =
        X.filter (fun row => decide (row.getD feat 0 ≤ thr)) ∧
    filterMask ((maskOf X feat thr).map not) X =
        X.filter (fun row => !(decide (row.getD feat 0 ≤ thr))) ∧
    (filterMask (maskOf X feat thr) X ++
        filterMask ((maskOf X feat thr).map not) X).Perm X ∧
    (filterMask (maskOf X feat thr) y ++
        filterMask ((maskOf X feat thr).map not) y).Perm y ∧
    ∃ ls rs pl plt pr prt,
      updateNode (.node lnn lf lt li ll lr) (filterMask (maskOf X feat thr) X)
          (filterMask (maskOf X feat thr) y) = .ok ls ∧
      updateNode (.node rnn rf rt ri rl rr)
          (filterMask ((maskOf X feat thr).map not) X)
          (filterMask ((maskOf X feat thr).map not) y) = .ok rs ∧
      es = internalEntry lnn rnn feat thr imp y :: ls ++ rs ∧
      ls = pl :: plt ∧ rs = pr :: prt ∧
      (internalEntry lnn rnn feat thr imp y).record.n_node_samples =
        pl.record.n_node_samples + pr.record.n_node_samples := by
  have hmX : (maskOf X feat thr).length = X.length := by simp [maskOf]
  have hmy : (maskOf X feat thr).length = y.length := by simp [maskOf, hlen]
  refine ⟨filterMask_map_self _ X, filterMask_map_not_self _ X,
    filterMask_append_perm _ X hmX, filterMask_append_perm _ y hmy, ?_⟩
  rw [updateNode_internal_eq] at h
  split at h
  · simp at h
  · rename_i ls hls
    split at h
    · simp at h
    · rename_i rs hrs
      simp only [Except.ok.injEq] at h
      subst h
      obtain ⟨pl, plt, hplt, hplv, hpln⟩ :=
        updateNode_node_head _ _ _ _ _ _ _ _ _ hls
      obtain ⟨pr, prt, hprt, hprv, hprn⟩ :=
        updateNode_node_head _ _ _ _ _ _ _ _ _ hrs
      refine ⟨ls, rs, pl, plt, pr, prt, hls, hrs, rfl, hplt, hprt, ?_⟩
      have hperm := filterMask_append_perm _ y hmy
      have h0 := cnt_eq_of_perm hperm 0
      have h1 := cnt_eq_of_perm hperm 1
      rw [cnt_append] at h0 h1
      show cnt 0 y + cnt 1 y = _
      rw [hpln, hprn]
      omega

theorem internal_partition_and_sample_sum_witness :
    filterMask (maskOf [[0],[1]] 0 0) [[0],[1]] =
        List.filter (fun row => decide (List.getD row 0 0 ≤ (0 : Rat))) [[0],[1]] ∧
    filterMask ((maskOf [[0],[1]] 0 0).map not) [[0],[1]] =
        List.filter (fun row => !(decide (List.getD row 0 0 ≤ (0 : Rat)))) [[0],[1]] ∧
    (filterMask (maskOf [[0],[1]] 0 0) ([[0],[1]] : List (List Rat)) ++
        filterMask ((maskOf [[0],[1]] 0 0).map not) [[0],[1]]).Perm [[0],[1]] ∧
    (filterMask (maskOf [[0],[1]] 0 0) ([0,1] : List Rat) ++
        filterMask ((maskOf [[0],[1]] 0 0).map not) [0,1]).Perm [0,1] ∧
    ∃ ls rs pl plt pr prt,
      updateNode (.node 1 0 0 0 .nil .nil) (filterMask (maskOf [[0],[1]] 0 0) [[0],[1]])
          (filterMask (maskOf [[0],[1]] 0 0) [0,1]) = .ok ls ∧
      updateNode (.node 2 0 0 0 .nil .nil)
          (filterMask ((maskOf [[0],[1]] 0 0).map not) [[0],[1]])
          (filterMask ((maskOf [[0],[1]] 0 0).map not) [0,1]) = .ok rs ∧
      [internalEntry 1 2 0 0 0 [0,1], leafEntry 0 [0], leafEntry 0 [1]] =
        internalEntry 1 2 0 0 0 [0,1] :: ls ++ rs ∧
      ls = pl :: plt ∧ rs = pr :: prt ∧
      (internalEntry 1 2 0 0 0 [0,1]).record.n_node_samples =
        pl.record.n_node_samples + pr.record.n_node_samples :=
  internal_partition_and_sample_sum 0 0 0 0 1 0 0 0 .nil .nil 2 0 0 0 .nil .nil
    [[0],[1]] [0,1] rfl
    [internalEntry 1 2 0 0 0 [0,1], leafEntry 0 [0], leafEntry 0 [1]] (by decide)

/-- Well-formedness as the spec requires of input trees: every internal node
has both children present (no node with exactly one child). -/
def wfb : FigsTree → Bool
  | .nil => true
  | .node _ _ _ _ l r => (isNil l == isNil r) && wfb l && wfb r

/-- The `node_num` attributes follow the pre-order visit order starting at
`k`: the root gets `k`, the left subtree the next `treeSize left` numbers,
then the right subtree the following ones. -/
def preordered : Nat → FigsTree → Bool
  | _, .nil => true
  | k, .node nnum _ _ _ l r =>
    (nnum == (k : Int)) && preordered (k + 1) l &&
      preordered (k + 1 + treeSize l) r

/-- The flattener as the spec words the child-index assignment: records in
pre-order, and an internal node's stored child indices are the positions at
which the children's records appear in the flattened sequence (the left
child immediately after its parent, the right child after the entire left
subtree), offset by the start position `k`.  It differs from `updateNode`
only in where the child indices come from. -/
def flattenSpec : Nat → FigsTree → List (List Rat) → List Rat → List FlatEntry
  | _, .nil, _, _ => []
  | k, .node _ feat thr imp l r, X, y =>
    if isNil l then [leafEntry imp y]
    else
      internalEntry ((k + 1 : Nat) : Int) ((k + 1 + treeSize l : Nat) : Int)
          feat thr imp y ::
        flattenSpec (k + 1) l (filterMask (maskOf X feat thr) X)
          (filterMask (maskOf X feat thr) y) ++
        flattenSpec (k + 1 + treeSize l) r
          (filterMask ((maskOf X feat thr).map not) X)
          (filterMask ((maskOf X feat thr).map not) y)

theorem wfb_rightonly_eq (nn : Int) (f : Nat) (t i : Rat)
    (rnn : Int) (rf : Nat) (rt ri : Rat) (rl rr : FigsTree) :
    wfb (.node nn f t i .nil (.node rnn rf rt ri rl rr)) = false := rfl

theorem wfb_leftonly_eq (nn : Int) (f : Nat) (t i : Rat)
    (lnn : Int) (lf : Nat) (lt li : Rat) (ll lr : FigsTree) :
    wfb (.node nn f t i (.node lnn lf lt li ll lr) .nil) = false := rfl

theorem wfb_internal_eq (nn : Int) (f : Nat) (t i : Rat)
    (lnn : Int) (lf : Nat) (lt li : Rat) (ll lr : FigsTree)
    (rnn : Int) (rf : Nat) (rt ri : Rat) (rl rr : FigsTree) :
    wfb (.node nn f t i (.node lnn lf lt li ll lr) (.node rnn rf rt ri rl rr)) =
      (wfb (.node lnn lf lt li ll lr) && wfb (.node rnn rf rt ri rl rr)) := rfl

theorem preordered_node_eq (k : Nat) (nnum : Int) (f : Nat) (t i : Rat)
    (l r : FigsTree) :
    preordered k (.node nnum f t i l r) =
      ((nnum == (k : Int)) && preordered (k + 1) l &&
        preordered (k + 1 + treeSize l) r) := rfl

theorem flattenSpec_leaf_eq (k : Nat) (nn : Int) (f : Nat) (t i : Rat)
    (r : FigsTree) (X : List (List Rat)) (y : List Rat) :
    flattenSpec k (.node nn f t i .nil r) X y = [leafEntry i y] := rfl

theorem flattenSpec_internal_eq (k : Nat) (nn : Int) (feat : Nat)
    (thr imp : Rat) (lnn : Int) (lf : Nat) (lt li : Rat) (ll lr : FigsTree)
    (r : FigsTree) (X : List (List Rat)) (y : List Rat) :
    flattenSpec k (.node nn feat thr imp (.node lnn lf lt li ll lr) r) X y =
      internalEntry ((k + 1 : Nat) : Int)
          ((k + 1 + treeSize (FigsTree.node lnn lf lt li ll lr) : Nat) : Int)
          feat thr imp y ::
        flattenSpec (k + 1) (.node lnn lf lt li ll lr)
          (filterMask (maskOf X feat thr) X)
          (filterMask (maskOf X feat thr) y) ++
        flattenSpec (k + 1 + treeSize (FigsTree.node lnn lf lt li ll lr)) r
          (filterMask ((maskOf X feat thr).map not) X)
          (filterMask ((maskOf X feat thr).map not) y) := rfl

theorem flattenSpec_length (t : FigsTree) :
    ∀ (k : Nat) (X : List (List Rat)) (y : List Rat), wfb t = true →
      (flattenSpec k t X y).length = treeSize t := by
  induction t with
  | nil => intro k X y _; rfl
  | node nnum feat thr imp l r ihl ihr =>
    intro k X y hwf
    cases l with
    | nil =>
      cases r with
      | nil => rfl
      | node rnn rf rt ri rl rr =>
        rw [wfb_rightonly_eq] at hwf
        exact absurd hwf (by simp)
    | node lnn lf lt li ll lr =>
      cases r with
      | nil =>
        rw [wfb_leftonly_eq] at hwf
        exact absurd hwf (by simp)
      | node rnn rf rt ri rl rr =>
        rw [wfb_internal_eq, Bool.and_eq_true] at hwf
        obtain ⟨hwl, hwr⟩ := hwf
        rw [flattenSpec_internal_eq]
        simp only [List.length_append, List.length_cons]
        rw [ihl _ _ _ hwl, ihr _ _ _ hwr]
        simp only [treeSize]
        omega

theorem updateNode_eq_flattenSpec (t : FigsTree) :
    ∀ (k : Nat) (X : List (List Rat)) (y : List Rat),
      wfb t = true → preordered k t = true →
      updateNode t X y = .ok (flattenSpec k t X y) := by
  induction t with
  | nil => intro k X y _ _; rfl
  | node nnum feat thr imp l r ihl ihr =>
    intro k X y hwf hord
    cases l with
    | nil =>
      cases r with
      | nil => rw [updateNode_leaf_eq, flattenSpec_leaf_eq]
      | node rnn rf rt ri rl rr =>
        rw [wfb_rightonly_eq] at hwf
        exact absurd hwf (by simp)
    | node lnn lf lt li ll lr =>
      cases r with
      | nil =>
        rw [wfb_leftonly_eq] at hwf
        exact absurd hwf (by simp)
      | node rnn rf rt ri rl rr =>
        rw [wfb_internal_eq, Bool.and_eq_true] at hwf
        obtain ⟨hwl, hwr⟩ := hwf
        rw [preordered_node_eq, Bool.and_eq_true, Bool.and_eq_true] at hord
        obtain ⟨⟨hnn, hol⟩, hor⟩ := hord
        have hlnn : lnn = ((k + 1 : Nat) : Int) := by
          have hc := hol
          rw [preordered_node_eq, Bool.and_eq_true, Bool.and_eq_true] at hc
          exact beq_iff_eq.mp hc.1.1
        have hrnn : rnn =
            ((k + 1 + treeSize (FigsTree.node lnn lf lt li ll lr) : Nat) : Int) := by
          have hc := hor
          rw [preordered_node_eq, Bool.and_eq_true, Bool.and_eq_true] at hc
          exact beq_iff_eq.mp hc.1.1
        rw [updateNode_internal_eq, ihl _ _ _ hwl hol, ihr _ _ _ hwr hor,
          flattenSpec_internal_eq]
        dsimp only
        rw [hlnn, hrnn]
        simp only [treeSize]

theorem flattenSpec_child_bounds (t : FigsTree) :
    ∀ (k : Nat) (X : List (List Rat)) (y : List Rat), wfb t = true →
      ∀ (j : Nat) (e : FlatEntry), (flattenSpec k t X y)[j]? = some e →
        (e.record.left_child = -1 ∧ e.record.right_child = -1) ∨
        (e.record.left_child = ((k + j + 1 : Nat) : Int) ∧
         ((k + j : Nat) : Int) < e.record.right_child ∧
         e.record.left_child < ((k + treeSize t : Nat) : Int) ∧
         e.record.right_child < ((k + treeSize t : Nat) : Int)) := by
  induction t with
  | nil => intro k X y _ j e h; simp [flattenSpec] at h
  | node nnum feat thr imp l r ihl ihr =>
    intro k X y hwf j e h
    cases l with
    | nil =>
      cases r with
      | nil =>
        rw [flattenSpec_leaf_eq] at h
        cases j with
        | zero =>
          simp only [List.getElem?_cons_zero, Option.some.injEq] at h
          subst h
          exact Or.inl ⟨rfl, rfl⟩
        | succ n => simp at h
      | node rnn rf rt ri rl rr =>
        rw [wfb_rightonly_eq] at hwf
        exact absurd hwf (by simp)
    | node lnn lf lt li ll lr =>
      cases r with
      | nil =>
        rw [wfb_leftonly_eq] at hwf
        exact absurd hwf (by simp)
      | node rnn rf rt ri rl rr =>
        rw [wfb_internal_eq, Bool.and_eq_true] at hwf
        obtain ⟨hwl, hwr⟩ := hwf
        have hts : treeSize (FigsTree.node nnum feat thr imp
            (FigsTree.node lnn lf lt li ll lr) (FigsTree.node rnn rf rt ri rl rr)) =
            1 + treeSize (FigsTree.node lnn lf lt li ll lr) +
              treeSize (FigsTree.node rnn rf rt ri rl rr) := rfl
        have htl : 1 ≤ treeSize (FigsTree.node lnn lf lt li ll lr) := by
          simp only [treeSize]
          omega
        have htr : 1 ≤ treeSize (FigsTree.node rnn rf rt ri rl rr) := by
          simp only [treeSize]
          omega
        rw [flattenSpec_internal_eq, List.cons_append] at h
        cases j with
        | zero =>
          simp only [List.getElem?_cons_zero, Option.some.injEq] at h
          subst h
          right
          simp only [internalEntry, treeSize, true_and, and_true]
          omega
        | succ n =>
          rw [List.getElem?_cons_succ] at h
          have hlslen := flattenSpec_length (FigsTree.node lnn lf lt li ll lr)
            (k + 1) (filterMask (maskOf X feat thr) X)
            (filterMask (maskOf X feat thr) y) hwl
          by_cases hn : n < (flattenSpec (k + 1) (FigsTree.node lnn lf lt li ll lr)
              (filterMask (maskOf X feat thr) X)
              (filterMask (maskOf X feat thr) y)).length
          · rw [List.getElem?_append_left hn] at h
            rcases ihl (k + 1) _ _ hwl n e h with hL | ⟨h1, h2, h3, h4⟩
            · exact Or.inl hL
            · right
              rw [hlslen] at hn
              simp only [treeSize] at h1 h2 h3 h4 hn ⊢
              omega
          · push_neg at hn
            rw [List.getElem?_append_right hn] at h
            rw [hlslen] at h hn
            rcases ihr (k + 1 + treeSize (FigsTree.node lnn lf lt li ll lr))
                _ _ hwr _ e h with hL | ⟨h1, h2, h3, h4⟩
            · exact Or.inl hL
            · right
              simp only [treeSize] at h1 h2 h3 h4 hn ⊢
              omega

/-- C1 counterexample: the flattener stores the children's `node_num`
attributes as child indices.  On a tree whose stable node numbers are 7 and
9, the flattened sequence has 3 records, the left child actually appears at
position 1, yet the stored `left_child` index is 7 — not the child's
position, not within the bounds of the flattened sequence.  The stable node
number is exactly what drives the stored indices. -/
theorem child_indices_counterexample :
    updateNode (.node 0 0 0 0 (.node 7 0 0 0 .nil .nil) (.node 9 0 0 0 .nil .nil))
        [[0], [1]] [0, 1] =
      .ok [internalEntry 7 9 0 0 0 [0, 1], leafEntry 0 [0], leafEntry 0 [1]] ∧
    (internalEntry 7 9 0 0 0 [0, 1]).record.left_child = 7 ∧
    [internalEntry 7 9 0 0 0 [0, 1], leafEntry 0 [0], leafEntry 0 [1]].length = 3 ∧
    ¬((7 : Int) < 3) :=
  ⟨by decide, rfl, rfl, by decide⟩

/-- C1 (amended): the stored child indices are the children's `node_num`
attributes, so the stable node number does drive them.  When the input tree
is well-formed and its node numbers are assigned in pre-order
(`preordered k`), the flattening coincides with the positional flattener
`flattenSpec k`: records appear in pre-order, each internal record's
`left_child` equals the position right after its own (where the left child's
record appears), and both stored child indices are strictly greater than the
record's own position and within the bounds of the flattened sequence. -/
theorem child_indices_positional_when_preordered (t : FigsTree) (k : Nat)
    (X : List (List Rat)) (y : List Rat) (hwf : wfb t = true)
    (hord : preordered k t = true) :
    updateNode t X y = .ok (flattenSpec k t X y) ∧
    (flattenSpec k t X y).length = treeSize t ∧
    ((flattenSpec k t X y).enum.all fun p =>
      (p.2.record.left_child == -1 && p.2.record.right_child == -1) ||
      (p.2.record.left_child == ((k + p.1 + 1 : Nat) : Int) &&
       decide (((k + p.1 : Nat) : Int) < p.2.record.right_child) &&
       decide (p.2.record.left_child < ((k + treeSize t : Nat) : Int)) &&
       decide (p.2.record.right_child < ((k + treeSize t : Nat) : Int)))) = true := by
  refine ⟨updateNode_eq_flattenSpec t k X y hwf hord,
    flattenSpec_length t k X y hwf, ?_⟩
  rw [List.all_eq_true]
  intro p hp
  have h := flattenSpec_child_bounds t k X y hwf p.1 p.2
    (List.mem_enum_iff_getElem?.mp hp)
  simp only [Bool.or_eq_true, Bool.and_eq_true, beq_iff_eq, decide_eq_true_eq]
  rcases h with ⟨h1, h2⟩ | ⟨h1, h2, h3, h4⟩
  · exact Or.inl ⟨h1, h2⟩
  · exact Or.inr ⟨⟨⟨h1, h2⟩, h3⟩, h4⟩

theorem child_indices_positional_when_preordered_witness :
    updateNode (.node 0 0 0 0 (.node 1 0 0 0 .nil .nil) (.node 2 0 0 0 .nil .nil))
        [[0], [1]] [0, 1] =
      .ok (flattenSpec 0
        (.node 0 0 0 0 (.node 1 0 0 0 .nil .nil) (.node 2 0 0 0 .nil .nil))
        [[0], [1]] [0, 1]) ∧
    (flattenSpec 0
        (.node 0 0 0 0 (.node 1 0 0 0 .nil .nil) (.node 2 0 0 0 .nil .nil))
        [[0], [1]] [0, 1]).length =
      treeSize (.node 0 0 0 0 (.node 1 0 0 0 .nil .nil) (.node 2 0 0 0 .nil .nil)) ∧
    ((flattenSpec 0
        (.node 0 0 0 0 (.node 1 0 0 0 .nil .nil) (.node 2 0 0 0 .nil .nil))
        [[0], [1]] [0, 1]).enum.all fun p =>
      (p.2.record.left_child == -1 && p.2.record.right_child == -1) ||
      (p.2.record.left_child == ((0 + p.1 + 1 : Nat) : Int) &&
       decide (((0 + p.1 : Nat) : Int) < p.2.record.right_child) &&
       decide (p.2.record.left_child <
         ((0 + treeSize (.node 0 0 0 0 (.node 1 0 0 0 .nil .nil)
           (.node 2 0 0 0 .nil .nil)) : Nat) : Int)) &&
       decide (p.2.record.right_child <
         ((0 + treeSize (.node 0 0 0 0 (.node 1 0 0 0 .nil .nil)
           (.node 2 0 0 0 .nil .nil)) : Nat) : Int)))) = true :=
  child_indices_positional_when_preordered
    (.node 0 0 0 0 (.node 1 0 0 0 .nil .nil) (.node 2 0 0 0 .nil .nil))
    0 [[0], [1]] [0, 1] (by decide) (by decide)

/-- C2 (code bug): an internal node with exactly one child is not detected.
With `left` present and `right` absent, `_update_node` evaluates
`node.right.node_num` on `None` and crashes with an unrelated
`AttributeError`; with `left` absent and `right` present
(`has_children = node.left is not None`), the node is silently treated as a
leaf and the right subtree is dropped.  Neither path reports a
structural-violation error. -/
theorem one_child_behaviour :
    updateNode (.node 0 0 0 0 (.node 1 0 0 0 .nil .nil) .nil) [[0], [1]] [0, 1] =
      .error "AttributeError: NoneType object has no attribute node_num" ∧
    updateNode (.node 0 0 0 0 .nil (.node 1 0 0 0 .nil .nil)) [[0], [1]] [0, 1] =
      .ok [leafEntry 0 [0, 1]] :=
  ⟨by decide, by decide⟩

/-- C3 counterexample: over the label vector [2.0] there is exactly one
distinct class, yet the per-node histogram is [0, 0]: its length is the
hard-coded 2, not the number of distinct observed classes, and the class
2.0 is omitted entirely (the histogram sums to 0 although one sample is
present). -/
theorem histogram_length_counterexample :
    updateNode (.node 0 0 0 0 .nil .nil) [[0]] [2] = .ok [leafEntry 0 [2]] ∧
    (leafEntry 0 [2]).value = [0, 0] ∧
    ([2] : List Rat).dedup.length = 1 ∧
    (leafEntry 0 [2]).value.length = 2 ∧
    (leafEntry 0 [2]).value.sum = 0 ∧
    ([2] : List Rat).length = 1 :=
  ⟨by decide, by decide, by decide, by decide, by decide, rfl⟩

/-- C3 (amended): the per-node histogram always has length 2 — slots for
the hard-coded classes 0.0 and 1.0 only, uniform across all nodes of every
flattening call regardless of the distinct classes in the supplied labels.
Of these two slots, a class absent from the carried subset is recorded as a
zero count (the node's histogram is [count of 0.0, count of 1.0] over its
carried labels); any other class has no slot at all. -/
theorem histogram_fixed_binary (nnum : Int) (feat : Nat) (thr imp : Rat)
    (l r : FigsTree) (X : List (List Rat)) (y : List Rat)
    (es : List FlatEntry)
    (h : updateNode (.node nnum feat thr imp l r) X y = .ok es) :
    (es.all fun e => e.value.length == 2) = true ∧
    (es.head?.map fun e => e.value) = some [cnt 0 y, cnt 1 y] := by
  constructor
  · rw [List.all_eq_true]
    intro e he
    have hl := updateNode_value_length _ _ _ _ h e he
    simp [hl]
  · obtain ⟨e, tail, htl, hv, -⟩ := updateNode_node_head _ _ _ _ _ _ _ _ _ h
    subst htl
    simp [hv]

theorem histogram_fixed_binary_witness :
    (([leafEntry 0 [2]] : List FlatEntry).all fun e => e.value.length == 2) = true ∧
    (([leafEntry 0 [2]] : List FlatEntry).head?.map fun e => e.value) =
      some [cnt 0 [2], cnt 1 [2]] :=
  histogram_fixed_binary 0 0 0 0 .nil .nil [[0]] [2] [leafEntry 0 [2]] (by decide)

/-- C7: flattening a single-leaf tree over the label vector {0,0,1,0,1}
produces exactly one record: value histogram [3,2], both child indices the
leaf sentinel −1, feature and threshold the leaf sentinel −2, and sample
count 5. -/
theorem single_leaf_five_samples :
    updateNode (.node 0 0 0 0 .nil .nil) [[0],[0],[0],[0],[0]] [0,0,1,0,1] =
      .ok [{ record := { left_child := -1, right_child := -1, feature := -2,
                         threshold := -2, impurity := 0, n_node_samples := 5,
                         weighted_n_node_samples := 5 },
             value := [3, 2] }] := by decide

/-- C4 (code bug): the classification branch tests the source model and
yields the classification variant, but the regression branch tests
`isinstance(self, RegressorMixin)` where `self` is an unbound name, so
converting a tree of a regression-kind source model raises `NameError`
instead of yielding the regression variant. -/
theorem regressor_branch_name_error :
    extract_sklearn_tree_from_figs
        { trees_ := [.node 0 0 0 0 .nil .nil], kind := .regressor }
        0 [[0], [1]] [0, 1] "1.0.2" =
      .error "NameError: name self is not defined" ∧
    extract_sklearn_tree_from_figs
        { trees_ := [.node 0 0 0 0 .nil .nil], kind := .classifier }
        0 [[0], [1]] [0, 1] "1.0.2" =
      .ok (.classifier 0
        { n_features := 1, n_classes := [2], n_outputs := 1, max_depth := 0,
          node_count := 1, nodes := [(leafEntry 0 [0, 1]).record],
          values := [[[1, 1]]] }) :=
  ⟨by decide, by decide⟩

/-- C5 (code bug): the flattener itself does handle an absent root (zero
records, depth −1), but the conversion does not complete: with an empty
`value_array` (a one-dimensional empty numpy array),
`value_array.reshape(n, 1, value_array.shape[1])` raises `IndexError`, so
no tree object with `node_count` 0 is produced. -/
theorem empty_tree_conversion_crashes :
    updateNode .nil [[0], [1]] [0, 1] = .ok [] ∧
    get_max_depth .nil = -1 ∧
    extract_sklearn_tree_from_figs { trees_ := [.nil], kind := .classifier }
        0 [[0], [1]] [0, 1] "1.0.2" =
      .error "IndexError: tuple index out of range" :=
  ⟨rfl, rfl, by decide⟩

theorem buildState_cons_eq (figs_tree : FigsTree) (X : List (List Rat))
    (y : List Rat) (v : String) (e : FlatEntry) (es : List FlatEntry)
    (hup : updateNode figs_tree X y = .ok (e :: es)) :
    buildState figs_tree X y v = .ok
      { max_depth := get_max_depth figs_tree,
        node_count := ((e :: es).map (·.record)).length,
        nodes := (e :: es).map (·.record),
        values := ((e :: es).map (·.value)).map fun vv => [vv],
        sklearn_version := v } := by
  unfold buildState extractArraysFromFigsTree
  rw [hup]
  rfl

theorem buildState_ok (figs_tree : FigsTree) (X : List (List Rat))
    (y : List Rat) (v : String) (st : SklearnState)
    (h : buildState figs_tree X y v = .ok st) :
    ∃ e es, updateNode figs_tree X y = .ok (e :: es) ∧
      st = { max_depth := get_max_depth figs_tree,
             node_count := ((e :: es).map (·.record)).length,
             nodes := (e :: es).map (·.record),
             values := ((e :: es).map (·.value)).map fun vv => [vv],
             sklearn_version := v } := by
  cases hu : updateNode figs_tree X y with
  | error er =>
    have heq : buildState figs_tree X y v = .error er := by
      unfold buildState extractArraysFromFigsTree
      rw [hu]
    rw [heq] at h
    exact absurd h (by simp)
  | ok es =>
    cases es with
    | nil =>
      have heq : buildState figs_tree X y v =
          .error "IndexError: tuple index out of range" := by
        unfold buildState extractArraysFromFigsTree
        rw [hu]
        rfl
      rw [heq] at h
      exact absurd h (by simp)
    | cons e es' =>
      rw [buildState_cons_eq _ _ _ _ _ _ hu] at h
      simp only [Except.ok.injEq] at h
      exact ⟨e, es', rfl, h.symm⟩

/-- C8 counterexample: with a single distinct class in the labels
(class_count 1) the bundle is still assembled with a value tensor of shape
1 × 1 × 2: the trailing dimension is the hard-coded 2, not the class
count. -/
theorem state_bundle_shape_counterexample :
    buildState (.node 0 0 0 0 .nil .nil) [[0]] [0] "1.0.2" =
      .ok { max_depth := 0, node_count := 1,
            nodes := [(leafEntry 0 [0]).record],
            values := [[[1, 0]]], sklearn_version := "1.0.2" } ∧
    ([0] : List Rat).dedup.length = 1 ∧
    ((([[[1, 0]]] : List (List (List Nat))).headD []).headD []).length = 2 ∧
    (2 : Nat) ≠ 1 :=
  ⟨by decide, by decide, rfl, by decide⟩

/-- C8 (amended): the state bundle handed to the populate phase carries the
seven-field node record array, max depth and node count of the flattened
tree, the format-version tag equal to the currently installed runtime
version, and the value tensor of shape node_count × 1 × 2: the middle
dimension is the output count (1) but the trailing dimension is the
hard-coded histogram length 2, which equals the observed class count only
when exactly two distinct classes appear in the labels. -/
theorem state_bundle_contents (figs_tree : FigsTree) (X : List (List Rat))
    (y : List Rat) (v : String) (st : SklearnState)
    (h : buildState figs_tree X y v = .ok st) :
    st.sklearn_version = v ∧
    st.max_depth = get_max_depth figs_tree ∧
    st.node_count = st.nodes.length ∧
    st.values.length = st.nodes.length ∧
    (st.values.all fun out => out.length == 1 &&
      out.all fun hist => hist.length == 2) = true := by
  obtain ⟨e, es, hu, hst⟩ := buildState_ok _ _ _ _ _ h
  subst hst
  refine ⟨rfl, rfl, rfl, by simp, ?_⟩
  rw [List.all_eq_true]
  intro out hout
  obtain ⟨vv, hvv, hvveq⟩ := List.mem_map.mp hout
  obtain ⟨e', he', hval⟩ := List.mem_map.mp hvv
  have h2 := updateNode_value_length _ _ _ _ hu e' he'
  subst hvveq
  subst hval
  simp [h2]

theorem state_bundle_contents_witness :
    ({ max_depth := 0, node_count := 1, nodes := [(leafEntry 0 [0]).record],
       values := [[[1, 0]]],
       sklearn_version := "1.0.2" } : SklearnState).sklearn_version = "1.0.2" ∧
    ({ max_depth := 0, node_count := 1, nodes := [(leafEntry 0 [0]).record],
       values := [[[1, 0]]],
       sklearn_version := "1.0.2" } : SklearnState).max_depth =
      get_max_depth (.node 0 0 0 0 .nil .nil) ∧
    ({ max_depth := 0, node_count := 1, nodes := [(leafEntry 0 [0]).record],
       values := [[[1, 0]]],
       sklearn_version := "1.0.2" } : SklearnState).node_count =
      ({ max_depth := 0, node_count := 1, nodes := [(leafEntry 0 [0]).record],
         values := [[[1, 0]]],
         sklearn_version := "1.0.2" } : SklearnState).nodes.length ∧
    ({ max_depth := 0, node_count := 1, nodes := [(leafEntry 0 [0]).record],
       values := [[[1, 0]]],
       sklearn_version := "1.0.2" } : SklearnState).values.length =
      ({ max_depth := 0, node_count := 1, nodes := [(leafEntry 0 [0]).record],
         values := [[[1, 0]]],
         sklearn_version := "1.0.2" } : SklearnState).nodes.length ∧
    (({ max_depth := 0, node_count := 1, nodes := [(leafEntry 0 [0]).record],
        values := [[[1, 0]]],
        sklearn_version := "1.0.2" } : SklearnState).values.all fun out =>
      out.length == 1 && out.all fun hist => hist.length == 2) = true :=
  state_bundle_contents (.node 0 0 0 0 .nil .nil) [[0]] [0] "1.0.2"
    { max_depth := 0, node_count := 1, nodes := [(leafEntry 0 [0]).record],
      values := [[[1, 0]]], sklearn_version := "1.0.2" } (by decide)

/-- C9 counterexample: the labels {0.0, 2.0} contain the class 2.0, which
has no histogram slot (slots are hard-coded for 0.0 and 1.0), yet the
distinct-label count is 2, so the shape check passes and the conversion
completes with no error: the single record's histogram [1, 0] sums to 1
although the dataset has 2 rows — class 2.0 is silently unaccounted. -/
theorem class_mismatch_counterexample :
    extract_sklearn_tree_from_figs
        { trees_ := [.node 0 0 0 0 .nil .nil], kind := .classifier }
        0 [[0], [0]] [0, 2] "1.0.2" =
      .ok (.classifier 0
        { n_features := 1, n_classes := [2], n_outputs := 1, max_depth := 0,
          node_count := 1, nodes := [(leafEntry 0 [0, 2]).record],
          values := [[[1, 0]]] }) ∧
    ([1, 0] : List Nat).sum = 1 ∧
    ([0, 2] : List Rat).length = 2 :=
  ⟨by decide, by decide, rfl⟩

theorem Tree_setstate_rejects (nf nc : Nat) (st : SklearnState)
    (vv : List Nat) (tail : List (List (List Nat)))
    (hval : st.values = [vv] :: tail) (hlen : vv.length = 2) (hnc : nc ≠ 2) :
    Tree_setstate nf [nc] 1 st =
      .error "ValueError: Did not recognise loaded array layout" := by
  unfold Tree_setstate
  dsimp only
  split
  · rename_i hcond
    exfalso
    rw [hval] at hcond
    simp only [Bool.and_eq_true, List.all_cons, beq_iff_eq, List.all_nil,
      Bool.and_true, List.foldr, Nat.max_zero, List.length_cons,
      List.length_nil, List.length_singleton] at hcond
    omega
  · rfl

/-- C9 (amended): a class-count problem is reported only through the
runtime's shape rejection: whenever the flattening succeeds and the number
of distinct labels differs from 2, the value tensor's trailing dimension
(hard-coded 2) mismatches the inferred class count and the conversion
errors.  When the distinct-label count equals 2 but the labels are not
{0.0, 1.0} (see the counterexample), the conversion completes with those
classes silently unaccounted for in the histograms. -/
theorem class_count_mismatch_reported (figs : Figs) (tn : Nat)
    (figs_tree : FigsTree) (X : List (List Rat)) (y : List Rat) (v : String)
    (e : FlatEntry) (es : List FlatEntry)
    (hget : figs.trees_.get? tn = some figs_tree)
    (hup : updateNode figs_tree X y = .ok (e :: es))
    (hcls : y.dedup.length ≠ 2) :
    extract_sklearn_tree_from_figs figs tn X y v =
      .error "ValueError: Did not recognise loaded array layout" := by
  have hv2 : e.value.length = 2 :=
    updateNode_value_length _ _ _ _ hup e (by simp)
  unfold extract_sklearn_tree_from_figs
  rw [hget]
  dsimp only
  rw [buildState_cons_eq _ _ _ _ _ _ hup]
  dsimp only
  rw [Tree_setstate_rejects ((X.headD []).length) (y.dedup.length) _ e.value
      ((es.map (·.value)).map fun vv => [vv]) (by simp) hv2 hcls]

theorem class_count_mismatch_reported_witness :
    extract_sklearn_tree_from_figs
        { trees_ := [.node 0 0 0 0 .nil .nil], kind := .classifier }
        0 [[0], [0], [0]] [0, 1, 2] "1.0.2" =
      .error "ValueError: Did not recognise loaded array layout" :=
  class_count_mismatch_reported
    { trees_ := [.node 0 0 0 0 .nil .nil], kind := .classifier }
    0 (.node 0 0 0 0 .nil .nil) [[0], [0], [0]] [0, 1, 2] "1.0.2"
    (leafEntry 0 [0, 1, 2]) [] rfl (by decide) (by decide)

/-- The flattening recursion with the python closure mutation made
explicit: `_update_node` appends to the enclosing `tree_data` /
`value_array` lists (held here in the threaded state), while the
caller-supplied arrays sit in the same state as `X0` / `y0`.  Appends
happen in the python order: the current node's record first, then the left
recursion, then the right recursion; the recursive calls receive freshly
filtered row subsets. -/
structure FlattenState where
  X0 : List (List Rat)
  y0 : List Rat
  tree_data : List NodeRecord
  value_array : List (List Nat)
deriving DecidableEq, Repr

def updateNodeSt : FigsTree → List (List Rat) → List Rat → FlattenState →
    Except String FlattenState
  | .nil, _, _, s => .ok s
  | .node _ feat thr imp l r, X, y, s =>
    match l with
    | .nil =>
      .ok { s with
            tree_data := s.tree_data ++ [(leafEntry imp y).record],
            value_array := s.value_array ++ [(leafEntry imp y).value] }
    | .node lnn lf lt li ll lr =>
      match r with
      | .nil => .error "AttributeError: NoneType object has no attribute node_num"
      | .node rnn rf rt ri rl rr =>
        let mask := maskOf X feat thr
        let s1 := { s with
          tree_data := s.tree_data ++
            [(internalEntry lnn rnn feat thr imp y).record],
          value_array := s.value_array ++
            [(internalEntry lnn rnn feat thr imp y).value] }
        match updateNodeSt (.node lnn lf lt li ll lr) (filterMask mask X)
            (filterMask mask y) s1 with
        | .error e => .error e
        | .ok s2 =>
          updateNodeSt (.node rnn rf rt ri rl rr)
            (filterMask (mask.map not) X) (filterMask (mask.map not) y) s2

theorem updateNodeSt_spec (t : FigsTree) :
    ∀ (X : List (List Rat)) (y : List Rat) (s s' : FlattenState),
      updateNodeSt t X y s = .ok s' →
      s'.X0 = s.X0 ∧ s'.y0 = s.y0 ∧
      ∃ es, updateNode t X y = .ok es ∧
        s'.tree_data = s.tree_data ++ es.map (·.record) ∧
        s'.value_array = s.value_array ++ es.map (·.value) := by
  induction t with
  | nil =>
    intro X y s s' h
    simp only [updateNodeSt, Except.ok.injEq] at h
    subst h
    exact ⟨rfl, rfl, [], rfl, by simp, by simp⟩
  | node nnum feat thr imp l r ihl ihr =>
    intro X y s s' h
    cases l with
    | nil =>
      simp only [updateNodeSt, Except.ok.injEq] at h
      subst h
      exact ⟨rfl, rfl, [leafEntry imp y], updateNode_leaf_eq _ _ _ _ _ _ _,
        rfl, rfl⟩
    | node lnn lf lt li ll lr =>
      cases r with
      | nil =>
        simp only [updateNodeSt] at h
        exact absurd h (by simp)
      | node rnn rf rt ri rl rr =>
        rw [show updateNodeSt (.node nnum feat thr imp
            (.node lnn lf lt li ll lr) (.node rnn rf rt ri rl rr)) X y s =
          (match updateNodeSt (.node lnn lf lt li ll lr)
              (filterMask (maskOf X feat thr) X)
              (filterMask (maskOf X feat thr) y)
              { s with
                tree_data := s.tree_data ++
                  [(internalEntry lnn rnn feat thr imp y).record],
                value_array := s.value_array ++
                  [(internalEntry lnn rnn feat thr imp y).value] } with
          | .error e => .error e
          | .ok s2 =>
            updateNodeSt (.node rnn rf rt ri rl rr)
              (filterMask ((maskOf X feat thr).map not) X)
              (filterMask ((maskOf X feat thr).map not) y) s2) from rfl] at h
        split at h
        · simp at h
        · rename_i s2 hs2
          obtain ⟨hX2, hy2, esl, hesl, htd2, hva2⟩ := ihl _ _ _ _ hs2
          obtain ⟨hX3, hy3, esr, hesr, htd3, hva3⟩ := ihr _ _ _ _ h
          refine ⟨by rw [hX3, hX2], by rw [hy3, hy2],
            internalEntry lnn rnn feat thr imp y :: esl ++ esr, ?_, ?_, ?_⟩
          · rw [updateNode_internal_eq, hesl, hesr]
          · rw [htd3, htd2]
            simp [List.map_append, List.append_assoc]
          · rw [hva3, hva2]
            simp [List.map_append, List.append_assoc]

/-- C10: a flattening call never writes into the caller-supplied feature
matrix and label vector: in the state-threaded model of the python closure,
a successful run leaves the `X0`/`y0` components of the state untouched,
and the only state change is that `tree_data`/`value_array` grow by exactly
the records and histograms the purely functional `updateNode` computes from
freshly constructed filtered row subsets. -/
theorem inputs_not_mutated (t : FigsTree) (X : List (List Rat))
    (y : List Rat) (s s' : FlattenState)
    (h : updateNodeSt t X y s = .ok s') :
    s'.X0 = s.X0 ∧ s'.y0 = s.y0 ∧
    Except.map (fun es => s.tree_data ++ es.map (·.record))
      (updateNode t X y) = .ok s'.tree_data ∧
    Except.map (fun es => s.value_array ++ es.map (·.value))
      (updateNode t X y) = .ok s'.value_array := by
  obtain ⟨h1, h2, es, hes, h3, h4⟩ := updateNodeSt_spec t X y s s' h
  refine ⟨h1, h2, ?_, ?_⟩
  · rw [hes]
    simp [Except.map, h3]
  · rw [hes]
    simp [Except.map, h4]

theorem inputs_not_mutated_witness :
    ([[0]] : List (List Rat)) = [[0]] ∧
    ([0] : List Rat) = [0] ∧
    Except.map (fun es => ([] : List NodeRecord) ++ es.map (·.record))
      (updateNode (.node 0 0 0 0 .nil .nil) [[0]] [0]) =
      .ok [(leafEntry 0 [0]).record] ∧
    Except.map (fun es => ([] : List (List Nat)) ++ es.map (·.value))
      (updateNode (.node 0 0 0 0 .nil .nil) [[0]] [0]) =
      .ok [[1, 0]] :=
  inputs_not_mutated (.node 0 0 0 0 .nil .nil) [[0]] [0]
    { X0 := [[0]], y0 := [0], tree_data := [], value_array := [] }
    { X0 := [[0]], y0 := [0], tree_data := [(leafEntry 0 [0]).record],
      value_array := [[1, 0]] }
    (by decide)
